import Mathlib

/-!
Shallow embedding of the `cxxlayout` layout-analysis engine
(`CxxLayout.h` / `CxxLayout.cpp`): the layout analyzer `analyzeRecord`,
the JSON serializer (`writeEscaped`, the `writeField` closure of
`getLayoutForRecord`), and the session surface (`cleanup`,
`getRecordList`, `getLayoutForRecord`).

The external Type Model (clang's AST and `ASTRecordLayout`) is embedded
as an input declaration tree carrying the layout numbers the C++ code
reads from it: per-record size/alignment, `hasOwnVFPtr`, per-base
sub-object offsets (`getBaseClassOffset`), per-field bit offsets
(`getFieldOffset`), and the target's pointer width/alignment.
Machine integers (`uint64_t` offsets, non-negative `CharUnits`
quantities) are embedded as `Nat`.
-/

namespace Cxxlayout

/-- `enum class FieldType` from `CxxLayout.h`. -/
inductive FieldType : Type where
  | Simple
  | Record
  | BitField
  | NVBase
  | VBase
  | VPtr
deriving DecidableEq, Repr

/-- `fieldTypeToString` from `CxxLayout.h` (the `default:` arm covers `VBase`). -/
def fieldTypeToString : FieldType → String
  | .Record => "Record"
  | .VPtr => "VPtr"
  | .NVBase => "NVBase"
  | .BitField => "BitField"
  | .Simple => "Simple"
  | .VBase => "Unknown"

/-- `class FieldInfo` from `CxxLayout.h`.  `offset` is in bits; `size` and
`align` are `CharUnits` quantities (bytes); `subFields` is the owned child
list.  `std::make_unique<FieldInfo>()` value-initializes every member, so
the defaults observed by the C++ code are `false`/`0`/empty. -/
inductive FieldInfo : Type where
  | mk (isValid : Bool) (fieldType : FieldType) (name type : String)
       (offset size align bitWidth : Nat) (subFields : List FieldInfo)

def FieldInfo.isValid : FieldInfo → Bool
  | .mk v _ _ _ _ _ _ _ _ => v

def FieldInfo.fieldType : FieldInfo → FieldType
  | .mk _ ft _ _ _ _ _ _ _ => ft

def FieldInfo.name : FieldInfo → String
  | .mk _ _ n _ _ _ _ _ _ => n

def FieldInfo.type : FieldInfo → String
  | .mk _ _ _ t _ _ _ _ _ => t

def FieldInfo.offset : FieldInfo → Nat
  | .mk _ _ _ _ o _ _ _ _ => o

def FieldInfo.size : FieldInfo → Nat
  | .mk _ _ _ _ _ s _ _ _ => s

def FieldInfo.align : FieldInfo → Nat
  | .mk _ _ _ _ _ _ a _ _ => a

def FieldInfo.bitWidth : FieldInfo → Nat
  | .mk _ _ _ _ _ _ _ b _ => b

def FieldInfo.subFields : FieldInfo → List FieldInfo
  | .mk _ _ _ _ _ _ _ _ s => s

/-- The target facts `analyzeRecord` reads from `Ctx.getTargetInfo()`:
`getPointerWidth` and `getPointerAlign`, both in bits. -/
structure TargetInfo : Type where
  ptrWidthBits : Nat
  ptrAlignBits : Nat
deriving DecidableEq, Repr

/-- `Ctx.toCharUnitsFromBits`: bits to `CharUnits` (bytes), truncating
division by the char width (8). -/
def toCharUnitsFromBits (bits : Nat) : Nat := bits / 8

mutual

/-- A `clang::CXXRecordDecl` (complete definition) together with the
numbers `analyzeRecord` reads from the Type Model for it:
`isInvalidDecl`, `getQualifiedNameAsString`, the `ASTRecordLayout` size
and alignment (bytes), `hasOwnVFPtr`, and its base and field lists. -/
inductive RecordDecl : Type where
  | mk (invalid : Bool) (qualName : String) (sizeBytes alignBytes : Nat)
       (hasOwnVFPtr : Bool) (bases : BaseList) (fields : FieldList)

/-- The record's direct base-specifier list: for each base, `isVirtual`,
the enclosing layout's `getBaseClassOffset` for it (bytes), and the base
record's declaration. -/
inductive BaseList : Type where
  | nil
  | cons (isVirtual : Bool) (offsetBytes : Nat) (decl : RecordDecl) (rest : BaseList)

/-- The record's field list, in declaration order.  For each field:
either its type is itself a record (`getAsCXXRecordDecl` non-null) or it
is a non-record field with `isInvalidDecl`, type display name, type
size/alignment (bytes), and an optional bit-field value width.  Both
carry the enclosing layout's `getFieldOffset` (bits). -/
inductive FieldList : Type where
  | nil
  | consScalar (invalid : Bool) (name typeName : String)
               (sizeBytes alignBytes offsetBits : Nat) (bitWidth : Option Nat)
               (rest : FieldList)
  | consRecord (name : String) (offsetBits : Nat) (decl : RecordDecl)
               (rest : FieldList)

end

def RecordDecl.invalid : RecordDecl → Bool
  | .mk i _ _ _ _ _ _ => i

def RecordDecl.qualName : RecordDecl → String
  | .mk _ q _ _ _ _ _ => q

def RecordDecl.sizeBytes : RecordDecl → Nat
  | .mk _ _ s _ _ _ _ => s

def RecordDecl.alignBytes : RecordDecl → Nat
  | .mk _ _ _ a _ _ _ => a

def RecordDecl.hasOwnVFPtr : RecordDecl → Bool
  | .mk _ _ _ _ h _ _ => h

def RecordDecl.bases : RecordDecl → BaseList
  | .mk _ _ _ _ _ b _ => b

def RecordDecl.fields : RecordDecl → FieldList
  | .mk _ _ _ _ _ _ f => f

/-- The `VPtrInfo` node built when `Layout.hasOwnVFPtr()`: valid, kind
`VPtr`, type `"vptr"`, offset 0, size/align from the target pointer
width/alignment. -/
def vptrNode (ctx : TargetInfo) : FieldInfo :=
  .mk true .VPtr "" "vptr" 0 (toCharUnitsFromBits ctx.ptrWidthBits)
      (toCharUnitsFromBits ctx.ptrAlignBits) 0 []

/-- The comparator passed to `llvm::sort` over base nodes
(`A->offset < B->offset`), as the `le` relation the Lean sort takes. -/
def baseLe (a b : FieldInfo) : Bool := a.offset ≤ b.offset

/-- Overwriting of `name` and `offset` done on a record-typed field's
node after the recursive `analyzeRecord` call. -/
def withNameOffset (f : FieldInfo) (n : String) (off : Nat) : FieldInfo :=
  match f with
  | .mk v ft _ t _ s a b subs => .mk v ft n t off s a b subs

/-- Relabelling done on a base's node after the recursive
`analyzeRecord` call: `fieldType` becomes `NVBase` and `offset` the
base-class offset in bits. -/
def asNVBase (f : FieldInfo) (off : Nat) : FieldInfo :=
  match f with
  | .mk v _ n t _ s a b subs => .mk v .NVBase n t off s a b subs

mutual

/-- `analyzeRecord` from `CxxLayout.cpp`: root node for the record, with
children assembled as vptr (if `hasOwnVFPtr`), then the non-virtual base
nodes sorted by offset, then the field nodes in declaration order;
`isValid` starts from `!RD->isInvalidDecl()` and is AND-folded with every
inserted base and field child's validity. -/
def analyzeRecord (ctx : TargetInfo) : RecordDecl → FieldInfo
  | .mk invalid qualName sizeB alignB hasVfptr bases fields =>
    let vptrPart : List FieldInfo := if hasVfptr then [vptrNode ctx] else []
    let baseNodes := analyzeBases ctx bases
    let fieldNodes := analyzeFields ctx fields
    .mk (!invalid && baseNodes.all FieldInfo.isValid
           && fieldNodes.all FieldInfo.isValid)
        .Record "" qualName 0 sizeB alignB 0
        (vptrPart ++ baseNodes.mergeSort baseLe ++ fieldNodes)

/-- The base loop of `analyzeRecord`: virtual bases are skipped
(`continue`); each non-virtual base is analyzed recursively, relabelled
`NVBase`, and given `getBaseClassOffset * 8` as its bit offset. -/
def analyzeBases (ctx : TargetInfo) : BaseList → List FieldInfo
  | .nil => []
  | .cons isVirt offB d rest =>
    if isVirt then analyzeBases ctx rest
    else asNVBase (analyzeRecord ctx d) (offB * 8) :: analyzeBases ctx rest

/-- The field loop of `analyzeRecord`: a record-typed field is analyzed
recursively and its `name`/`offset` overwritten; any other field becomes
a leaf (`BitField` when `isBitField`, else `Simple`). -/
def analyzeFields (ctx : TargetInfo) : FieldList → List FieldInfo
  | .nil => []
  | .consScalar invalid name typeName sizeB alignB offBits bw rest =>
    (match bw with
     | some w => FieldInfo.mk (!invalid) .BitField name typeName offBits sizeB alignB w []
     | none => FieldInfo.mk (!invalid) .Simple name typeName offBits sizeB alignB 0 [])
      :: analyzeFields ctx rest
  | .consRecord name offBits d rest =>
    withNameOffset (analyzeRecord ctx d) name offBits :: analyzeFields ctx rest

end

mutual

/-- The AND-reduction of well-formedness over a whole declaration tree:
the record's own `!isInvalidDecl`, every non-virtual base recursively,
and every field (a record-typed field contributes its record's
reduction; any other field contributes its own `!isInvalidDecl`).
Virtual bases are excluded, as `analyzeRecord` skips them. -/
def declValidAll : RecordDecl → Bool
  | .mk invalid _ _ _ _ bases fields =>
    !invalid && basesValidAll bases && fieldsValidAll fields

def basesValidAll : BaseList → Bool
  | .nil => true
  | .cons isVirt _ d rest =>
    (if isVirt then true else declValidAll d) && basesValidAll rest

def fieldsValidAll : FieldList → Bool
  | .nil => true
  | .consScalar invalid _ _ _ _ _ _ rest => !invalid && fieldsValidAll rest
  | .consRecord _ _ d rest => declValidAll d && fieldsValidAll rest

end

/-- Number of non-virtual entries in a base-specifier list. -/
def BaseList.countNonVirtual : BaseList → Nat
  | .nil => 0
  | .cons isVirt _ _ rest =>
    (if isVirt then 0 else 1) + BaseList.countNonVirtual rest

/-- Number of declared fields. -/
def FieldList.length : FieldList → Nat
  | .nil => 0
  | .consScalar _ _ _ _ _ _ _ rest => 1 + FieldList.length rest
  | .consRecord _ _ _ rest => 1 + FieldList.length rest

/-- Declared field names, in declaration order. -/
def FieldList.names : FieldList → List String
  | .nil => []
  | .consScalar _ n _ _ _ _ _ rest => n :: FieldList.names rest
  | .consRecord n _ _ rest => n :: FieldList.names rest

/-- Declared field bit offsets, in declaration order. -/
def FieldList.offsets : FieldList → List Nat
  | .nil => []
  | .consScalar _ _ _ _ _ off _ rest => off :: FieldList.offsets rest
  | .consRecord _ off _ rest => off :: FieldList.offsets rest

/-! ## Decimal rendering (`llvm::utostr`, `raw_ostream <<` on unsigned) -/

/-- Digit-accumulating loop of `llvm::utostr`; the fuel argument only
bounds the recursion depth (one digit per step). -/
def utostrAux : Nat → Nat → List Char → List Char
  | 0, _, acc => acc
  | fuel + 1, n, acc =>
    if n < 10 then Char.ofNat (48 + n) :: acc
    else utostrAux fuel (n / 10) (Char.ofNat (48 + n % 10) :: acc)

/-- `llvm::utostr`: decimal rendering of an unsigned 64-bit value (also
the behaviour of `raw_ostream <<` on unsigned integers). -/
def utostr (n : Nat) : String := String.mk (utostrAux (n + 1) n [])

/-- The implicit `int64_t` → `uint64_t` conversion at the
`llvm::utostr(R.first)` call site: value modulo `2^64`. -/
def toUInt64Nat (i : Int) : Nat := (i % (2 ^ 64 : Int)).toNat

/-! ## String escaping (`writeEscaped`) -/

/-- The `Hex` table `"0123456789ABCDEF"` of `writeEscaped`, as the byte
at index `k`. -/
def hexUpperDigit (k : Nat) : Nat := if k < 10 then 48 + k else 55 + k

/-- The `switch` body of `writeEscaped` for one byte (byte values, with
92 = `\`, 34 = `"`). -/
def escapeByte (c : Nat) : List Nat :=
  if c = 34 then [92, 34]
  else if c = 92 then [92, 92]
  else if c = 8 then [92, 98]
  else if c = 12 then [92, 102]
  else if c = 10 then [92, 110]
  else if c = 13 then [92, 114]
  else if c = 9 then [92, 116]
  else if c < 0x20 then
    [92, 117, 48, 48, hexUpperDigit ((c >>> 4) &&& 0xF), hexUpperDigit (c &&& 0xF)]
  else [c]

/-- `writeEscaped` from `CxxLayout.cpp`: the byte loop, with the
`static_cast<unsigned char>` truncation of each input byte. -/
def writeEscaped : List Nat → List Nat
  | [] => []
  | b :: rest => escapeByte (b % 256) ++ writeEscaped rest

/-- Modelled from the spec: "escape `\"` and `\\`; escape
backspace/form-feed/newline/carriage-return/tab with short escapes;
escape other control bytes below 0x20 as a 4-hex-digit escape; pass all
other bytes through unchanged" — the per-byte escape the spec describes,
to be compared with `writeEscaped`. -/
def escapeByteSpec (c : Nat) : List Nat :=
  if c = 34 ∨ c = 92 then [92, c]
  else if c = 8 then [92, 98]
  else if c = 12 then [92, 102]
  else if c = 10 then [92, 110]
  else if c = 13 then [92, 114]
  else if c = 9 then [92, 116]
  else if c < 0x20 then
    [92, 117] ++ [hexUpperDigit 0, hexUpperDigit 0,
                  hexUpperDigit (c / 16), hexUpperDigit (c % 16)]
  else [c]

/-- `writeEscaped` at the level of Lean `String` characters, used where
the serializer escapes a `std::string`.  On UTF-8 text this is the same
byte transformation: every byte of a multi-byte character is ≥ 0x80 and
passes through the byte-level `writeEscaped` unchanged. -/
def escapeChar (c : Char) : String :=
  if c = '\"' then "\\\""
  else if c = '\\' then "\\\\"
  else if c.toNat = 8 then "\\b"
  else if c.toNat = 12 then "\\f"
  else if c = '\n' then "\\n"
  else if c.toNat = 13 then "\\r"
  else if c = '\t' then "\\t"
  else if c.toNat < 0x20 then
    "\\u00" ++ String.mk [Char.ofNat (hexUpperDigit (c.toNat / 16)),
                          Char.ofNat (hexUpperDigit (c.toNat % 16))]
  else String.singleton c

def escapeString (s : String) : String := String.join (s.data.map escapeChar)

/-! ## The serializer of `getLayoutForRecord` (`writeField`) -/

/-- The part of one `writeField` emission preceding the `offset` key:
`fieldType`, optional `name`, `type`, `size`, `align`. -/
def fieldHead (f : FieldInfo) : String :=
  "\x7b\"fieldType\":\"" ++ fieldTypeToString f.fieldType ++ "\"" ++
  (if f.name = "" then "" else ",\"name\":\"" ++ escapeString f.name ++ "\"") ++
  ",\"type\":\"" ++ escapeString f.type ++ "\"" ++
  ",\"size\":" ++ utostr f.size ++
  ",\"align\":" ++ utostr f.align

mutual

/-- The `writeField` lambda of `getLayoutForRecord`: one JSON object per
node, keys in fixed order; `bitWidth` only for `BitField`; `subFields`
only for `Record`/`NVBase`; `offset` rendered as the stored bit offset
shifted right by 3. -/
def writeField : FieldInfo → String
  | .mk v ft n t off sz al bw subs =>
    fieldHead (.mk v ft n t off sz al bw subs) ++
    (",\"offset\":" ++ utostr (off >>> 3)) ++
    ((if ft = .BitField then ",\"bitWidth\":" ++ utostr bw else "") ++
     ((if ft = .Record || ft = .NVBase then
         ",\"subFields\": [" ++ writeFieldsAux subs true ++ "]"
       else "") ++ "\x7d"))

/-- The `subFields` loop with its `first` comma flag. -/
def writeFieldsAux : List FieldInfo → Bool → String
  | [], _ => ""
  | f :: rest, first =>
    (if first then "" else ",") ++ writeField f ++ writeFieldsAux rest false

end

/-! ## Session surface (`LayoutContext`, `cleanup`, `getRecordList`,
`getLayoutForRecord`) -/

/-- `struct LayoutContext`: configuration string, cached listing text,
and the identity-keyed record store.  `std::map<int64_t, FieldInfoPtr>`
is embedded as an association list whose iteration order is its list
order; the map's invariant (strictly ascending keys) is stated where a
claim needs it. -/
structure LayoutContext : Type where
  args : String
  recordList : String
  records : List (Int × FieldInfo)

/-- `cleanup()`: clears the cached listing and the record store. -/
def cleanup (c : LayoutContext) : LayoutContext :=
  { c with recordList := "", records := [] }

/-- One `{"id":"...","name":"..."}` entry of `getRecordList`. -/
def recordEntry (p : Int × FieldInfo) : String :=
  "\x7b\"id\":\"" ++ utostr (toUInt64Nat p.1) ++ "\",\"name\":\"" ++
    escapeString p.2.type ++ "\"\x7d"

/-- The entry loop of `getRecordList` with its `first` comma flag. -/
def renderRecords : List (Int × FieldInfo) → Bool → String
  | [], _ => ""
  | p :: rest, first =>
    (if first then "" else ",") ++ recordEntry p ++ renderRecords rest false

/-- The listing text `getRecordList` assembles from the store. -/
def getRecordListStr (recs : List (Int × FieldInfo)) : String :=
  "[" ++ renderRecords recs true ++ "]"

/-- `getRecordList()`: renders the store, caches the text in
`recordList`, and returns it. -/
def getRecordList (c : LayoutContext) : String × LayoutContext :=
  (getRecordListStr c.records, { c with recordList := getRecordListStr c.records })

/-- `getLayoutForRecord(id)`: `"{}"` on a missing identity, otherwise
the `writeField` rendering of the stored root; the context is not
modified. -/
def getLayoutForRecord (c : LayoutContext) (id : Int) : String × LayoutContext :=
  match List.lookup id c.records with
  | none => ("\x7b\x7d", c)
  | some root => (writeField root, c)

/-- Tail of a comma-separated join: `",s1,s2,...,sn"`. -/
def commaJoinTail : List String → String
  | [] => ""
  | s :: rest => "," ++ s ++ commaJoinTail rest

/-- Comma-separated join `"s1,s2,...,sn"`: the canonical form of the
`first`-flag loops of `getRecordList` and `writeField`. -/
def commaJoin : List String → String
  | [] => ""
  | s :: rest => s ++ commaJoinTail rest

/-! ## Basic accessor and helper lemmas -/

@[simp] theorem FieldInfo.isValid_mk (v ft n t o s a b subs) :
    (FieldInfo.mk v ft n t o s a b subs).isValid = v := rfl

@[simp] theorem FieldInfo.fieldType_mk (v ft n t o s a b subs) :
    (FieldInfo.mk v ft n t o s a b subs).fieldType = ft := rfl

@[simp] theorem FieldInfo.name_mk (v ft n t o s a b subs) :
    (FieldInfo.mk v ft n t o s a b subs).name = n := rfl

@[simp] theorem FieldInfo.type_mk (v ft n t o s a b subs) :
    (FieldInfo.mk v ft n t o s a b subs).type = t := rfl

@[simp] theorem FieldInfo.offset_mk (v ft n t o s a b subs) :
    (FieldInfo.mk v ft n t o s a b subs).offset = o := rfl

@[simp] theorem FieldInfo.size_mk (v ft n t o s a b subs) :
    (FieldInfo.mk v ft n t o s a b subs).size = s := rfl

@[simp] theorem FieldInfo.align_mk (v ft n t o s a b subs) :
    (FieldInfo.mk v ft n t o s a b subs).align = a := rfl

@[simp] theorem FieldInfo.bitWidth_mk (v ft n t o s a b subs) :
    (FieldInfo.mk v ft n t o s a b subs).bitWidth = b := rfl

@[simp] theorem FieldInfo.subFields_mk (v ft n t o s a b subs) :
    (FieldInfo.mk v ft n t o s a b subs).subFields = subs := rfl

@[simp] theorem RecordDecl.invalid_mk (i q s a h bs fs) :
    (RecordDecl.mk i q s a h bs fs).invalid = i := rfl

@[simp] theorem RecordDecl.hasOwnVFPtr_mk (i q s a h bs fs) :
    (RecordDecl.mk i q s a h bs fs).hasOwnVFPtr = h := rfl

@[simp] theorem RecordDecl.bases_mk (i q s a h bs fs) :
    (RecordDecl.mk i q s a h bs fs).bases = bs := rfl

@[simp] theorem RecordDecl.fields_mk (i q s a h bs fs) :
    (RecordDecl.mk i q s a h bs fs).fields = fs := rfl

@[simp] theorem asNVBase_isValid (f : FieldInfo) (off : Nat) :
    (asNVBase f off).isValid = f.isValid := by cases f; rfl

@[simp] theorem asNVBase_fieldType (f : FieldInfo) (off : Nat) :
    (asNVBase f off).fieldType = .NVBase := by cases f; rfl

@[simp] theorem asNVBase_offset (f : FieldInfo) (off : Nat) :
    (asNVBase f off).offset = off := by cases f; rfl

@[simp] theorem withNameOffset_isValid (f : FieldInfo) (n : String) (off : Nat) :
    (withNameOffset f n off).isValid = f.isValid := by cases f; rfl

@[simp] theorem withNameOffset_fieldType (f : FieldInfo) (n : String) (off : Nat) :
    (withNameOffset f n off).fieldType = f.fieldType := by cases f; rfl

@[simp] theorem withNameOffset_name (f : FieldInfo) (n : String) (off : Nat) :
    (withNameOffset f n off).name = n := by cases f; rfl

@[simp] theorem withNameOffset_offset (f : FieldInfo) (n : String) (off : Nat) :
    (withNameOffset f n off).offset = off := by cases f; rfl

@[simp] theorem vptrNode_isValid (ctx : TargetInfo) : (vptrNode ctx).isValid = true := rfl

@[simp] theorem vptrNode_fieldType (ctx : TargetInfo) : (vptrNode ctx).fieldType = .VPtr := rfl

@[simp] theorem vptrNode_name (ctx : TargetInfo) : (vptrNode ctx).name = "" := rfl

@[simp] theorem vptrNode_type (ctx : TargetInfo) : (vptrNode ctx).type = "vptr" := rfl

@[simp] theorem vptrNode_offset (ctx : TargetInfo) : (vptrNode ctx).offset = 0 := rfl

@[simp] theorem vptrNode_size (ctx : TargetInfo) :
    (vptrNode ctx).size = ctx.ptrWidthBits / 8 := rfl

@[simp] theorem vptrNode_align (ctx : TargetInfo) :
    (vptrNode ctx).align = ctx.ptrAlignBits / 8 := rfl

theorem analyzeRecord_fieldType (ctx : TargetInfo) (rd : RecordDecl) :
    (analyzeRecord ctx rd).fieldType = .Record := by
  cases rd with
  | mk inv q sB aB h bs fs => simp [analyzeRecord]

theorem all_eq_of_perm {α : Type} {l1 l2 : List α} (h : l1.Perm l2) (p : α → Bool) :
    l1.all p = l2.all p := by
  rw [Bool.eq_iff_iff]
  simp only [List.all_eq_true]
  exact ⟨fun H x hx => H x (h.mem_iff.mpr hx), fun H x hx => H x (h.mem_iff.mp hx)⟩

/-! ## Validity propagation over the declaration tree -/

mutual

theorem analyzeRecord_isValid_eq (ctx : TargetInfo) (rd : RecordDecl) :
    (analyzeRecord ctx rd).isValid = declValidAll rd := by
  cases rd with
  | mk inv q sB aB h bs fs =>
    simp [analyzeRecord, declValidAll,
          analyzeBases_all_isValid ctx bs, analyzeFields_all_isValid ctx fs]

theorem analyzeBases_all_isValid (ctx : TargetInfo) (bs : BaseList) :
    (analyzeBases ctx bs).all FieldInfo.isValid = basesValidAll bs := by
  cases bs with
  | nil => simp [analyzeBases, basesValidAll]
  | cons isVirt offB d rest =>
    cases isVirt with
    | true => simp [analyzeBases, basesValidAll, analyzeBases_all_isValid ctx rest]
    | false =>
      simp [analyzeBases, basesValidAll, analyzeBases_all_isValid ctx rest,
            analyzeRecord_isValid_eq ctx d]

theorem analyzeFields_all_isValid (ctx : TargetInfo) (fs : FieldList) :
    (analyzeFields ctx fs).all FieldInfo.isValid = fieldsValidAll fs := by
  cases fs with
  | nil => simp [analyzeFields, fieldsValidAll]
  | consScalar inv n tn sB aB off bw rest =>
    cases bw <;>
      simp [analyzeFields, fieldsValidAll, analyzeFields_all_isValid ctx rest]
  | consRecord n off d rest =>
    simp [analyzeFields, fieldsValidAll, analyzeFields_all_isValid ctx rest,
          analyzeRecord_isValid_eq ctx d]

end

/-! ## Shape of the produced child lists -/

theorem analyzeBases_length (ctx : TargetInfo) : (bs : BaseList) →
    (analyzeBases ctx bs).length = bs.countNonVirtual
  | .nil => by simp [analyzeBases, BaseList.countNonVirtual]
  | .cons isVirt offB d rest => by
    cases isVirt with
    | true =>
      simp [analyzeBases, BaseList.countNonVirtual, analyzeBases_length ctx rest]
    | false =>
      simp [analyzeBases, BaseList.countNonVirtual, analyzeBases_length ctx rest]
      omega

theorem analyzeFields_length (ctx : TargetInfo) : (fs : FieldList) →
    (analyzeFields ctx fs).length = fs.length
  | .nil => by simp [analyzeFields, FieldList.length]
  | .consScalar inv n tn sB aB off bw rest => by
    cases bw with
    | none =>
      simp [analyzeFields, FieldList.length, analyzeFields_length ctx rest]
      omega
    | some w =>
      simp [analyzeFields, FieldList.length, analyzeFields_length ctx rest]
      omega
  | .consRecord n off d rest => by
    simp [analyzeFields, FieldList.length, analyzeFields_length ctx rest]
    omega

theorem analyzeFields_names (ctx : TargetInfo) : (fs : FieldList) →
    (analyzeFields ctx fs).map FieldInfo.name = fs.names
  | .nil => by simp [analyzeFields, FieldList.names]
  | .consScalar inv n tn sB aB off bw rest => by
    cases bw with
    | none => simp [analyzeFields, FieldList.names, analyzeFields_names ctx rest]
    | some w => simp [analyzeFields, FieldList.names, analyzeFields_names ctx rest]
  | .consRecord n off d rest => by
    simp [analyzeFields, FieldList.names, analyzeFields_names ctx rest]

theorem analyzeFields_offsets (ctx : TargetInfo) : (fs : FieldList) →
    (analyzeFields ctx fs).map FieldInfo.offset = fs.offsets
  | .nil => by simp [analyzeFields, FieldList.offsets]
  | .consScalar inv n tn sB aB off bw rest => by
    cases bw with
    | none => simp [analyzeFields, FieldList.offsets, analyzeFields_offsets ctx rest]
    | some w => simp [analyzeFields, FieldList.offsets, analyzeFields_offsets ctx rest]
  | .consRecord n off d rest => by
    simp [analyzeFields, FieldList.offsets, analyzeFields_offsets ctx rest]

theorem mem_analyzeBases_fieldType (ctx : TargetInfo) : (bs : BaseList) →
    ∀ f ∈ analyzeBases ctx bs, f.fieldType = .NVBase
  | .nil => by simp [analyzeBases]
  | .cons isVirt offB d rest => by
    cases isVirt with
    | true =>
      simpa [analyzeBases] using mem_analyzeBases_fieldType ctx rest
    | false =>
      intro f hf
      rcases List.mem_cons.mp (by simpa [analyzeBases] using hf) with h | h
      · subst h; simp
      · exact mem_analyzeBases_fieldType ctx rest f h

theorem mem_analyzeFields_fieldType (ctx : TargetInfo) : (fs : FieldList) →
    ∀ f ∈ analyzeFields ctx fs, f.fieldType ≠ .VPtr
  | .nil => by simp [analyzeFields]
  | .consScalar inv n tn sB aB off bw rest => by
    intro f hf
    cases bw with
    | none =>
      rcases List.mem_cons.mp (by simpa [analyzeFields] using hf) with h | h
      · subst h; simp
      · exact mem_analyzeFields_fieldType ctx rest f h
    | some w =>
      rcases List.mem_cons.mp (by simpa [analyzeFields] using hf) with h | h
      · subst h; simp
      · exact mem_analyzeFields_fieldType ctx rest f h
  | .consRecord n off d rest => by
    intro f hf
    rcases List.mem_cons.mp (by simpa [analyzeFields] using hf) with h | h
    · subst h
      simp [analyzeRecord_fieldType ctx d]
    · exact mem_analyzeFields_fieldType ctx rest f h

theorem analyzeRecord_subFields (ctx : TargetInfo)
    (inv : Bool) (q : String) (sB aB : Nat) (h : Bool) (bs : BaseList) (fs : FieldList) :
    (analyzeRecord ctx (.mk inv q sB aB h bs fs)).subFields
      = (if h then [vptrNode ctx] else [])
        ++ (analyzeBases ctx bs).mergeSort baseLe ++ analyzeFields ctx fs := by
  simp [analyzeRecord]

theorem baseLe_trans (a b c : FieldInfo) :
    baseLe a b = true → baseLe b c = true → baseLe a c = true := by
  simp [baseLe]
  omega

theorem baseLe_total (a b : FieldInfo) : (baseLe a b || baseLe b a) = true := by
  simp [baseLe]
  omega

/-! ## Rendering helper lemmas -/

theorem renderRecords_false_eq : (recs : List (Int × FieldInfo)) →
    renderRecords recs false = commaJoinTail (recs.map recordEntry)
  | [] => rfl
  | p :: rest => by
    simp [renderRecords, commaJoinTail, renderRecords_false_eq rest]

theorem renderRecords_true_eq : (recs : List (Int × FieldInfo)) →
    renderRecords recs true = commaJoin (recs.map recordEntry)
  | [] => rfl
  | p :: rest => by
    simp [renderRecords, commaJoin, commaJoinTail, renderRecords_false_eq rest]

theorem utostrAux_digits : (fuel : Nat) → (n : Nat) → (acc : List Char) →
    acc.all Char.isDigit = true → (utostrAux fuel n acc).all Char.isDigit = true
  | 0, n, acc => fun h => h
  | fuel + 1, n, acc => fun h => by
    have hd : ∀ k, k < 10 → (Char.ofNat (48 + k)).isDigit = true := by decide
    by_cases hn : n < 10
    · simp [utostrAux, hn, h, hd n hn]
    · simp only [utostrAux, if_neg hn]
      exact utostrAux_digits fuel (n / 10) _
        (by simp [h, hd (n % 10) (Nat.mod_lt n (by omega))])

theorem utostr_digits (n : Nat) : (utostr n).data.all Char.isDigit = true :=
  utostrAux_digits (n + 1) n [] rfl

theorem renderRecords_decomp (p : Int × FieldInfo) (l2 : List (Int × FieldInfo)) :
    (l1 : List (Int × FieldInfo)) → (first : Bool) →
    ∃ pre, renderRecords (l1 ++ p :: l2) first
      = pre ++ recordEntry p ++ renderRecords l2 false
  | [], first => ⟨if first then "" else ",", by simp [renderRecords]⟩
  | q :: l1, first => by
    obtain ⟨pre, hpre⟩ := renderRecords_decomp p l2 l1 false
    refine ⟨(if first then "" else ",") ++ recordEntry q ++ pre, ?_⟩
    show renderRecords (q :: (l1 ++ p :: l2)) first = _
    rw [renderRecords, hpre]
    simp only [String.append_assoc]

theorem recordEntry_decomp (p : Int × FieldInfo) :
    recordEntry p
      = "\x7b" ++ ("\"id\":\"" ++ utostr (toUInt64Nat p.1) ++ "\"")
          ++ (",\"name\":\"" ++ escapeString p.2.type ++ "\"\x7d") := by
  have h1 : ("\x7b\"id\":\"" : String) = "\x7b" ++ "\"id\":\"" := by decide
  have h2 : ("\",\"name\":\"" : String) = "\"" ++ ",\"name\":\"" := by decide
  rw [recordEntry, h1, h2]
  simp only [String.append_assoc]

/-! ## Claim theorems -/

/-- C1 (amended): for every analyzed record, the child list is assembled
as vptr (if any), then the non-virtual base nodes sorted in
non-decreasing order by offset (a permutation of the analyzed bases,
irrespective of inheritance-list order), then the field nodes in
declaration order irrespective of their offsets. -/
theorem analyzeRecord_children_order (ctx : TargetInfo) (rd : RecordDecl) :
    ∃ sortedBases : List FieldInfo,
      (analyzeRecord ctx rd).subFields
        = (if rd.hasOwnVFPtr then [vptrNode ctx] else [])
            ++ sortedBases ++ analyzeFields ctx rd.fields
      ∧ sortedBases.Perm (analyzeBases ctx rd.bases)
      ∧ sortedBases.Pairwise (fun a b => a.offset ≤ b.offset)
      ∧ (analyzeFields ctx rd.fields).map FieldInfo.name = rd.fields.names
      ∧ (analyzeFields ctx rd.fields).map FieldInfo.offset = rd.fields.offsets := by
  cases rd with
  | mk inv q sB aB h bs fs =>
    refine ⟨(analyzeBases ctx bs).mergeSort baseLe, ?_, List.mergeSort_perm _ _, ?_,
      analyzeFields_names ctx fs, analyzeFields_offsets ctx fs⟩
    · simp [analyzeRecord_subFields]
    · exact (@List.sorted_mergeSort _ baseLe baseLe_trans baseLe_total
        (analyzeBases ctx bs)).imp (fun hab => by simpa [baseLe] using hab)

/-- C1 counterexample: a record with two distinct empty non-virtual
bases both placed at offset 0 (as the Itanium ABI does) has base
children offsets `[0, 0]`: sorted non-decreasingly, but not *strictly*
ascending as the claim states. -/
theorem analyzeRecord_strict_sort_counterexample :
    ((analyzeRecord ⟨64, 64⟩
        (.mk false "D" 1 1 false
          (.cons false 0 (.mk false "E1" 1 1 false .nil .nil)
            (.cons false 0 (.mk false "E2" 1 1 false .nil .nil) .nil))
          .nil)).subFields.map FieldInfo.offset) = [0, 0]
    ∧ ¬ List.Pairwise (fun a b : Nat => a < b) [0, 0] := by
  constructor
  · rw [analyzeRecord_subFields]
    have hb : analyzeBases ⟨64, 64⟩
        (.cons false 0 (.mk false "E1" 1 1 false .nil .nil)
          (.cons false 0 (.mk false "E2" 1 1 false .nil .nil) .nil))
        = [asNVBase (analyzeRecord ⟨64, 64⟩ (.mk false "E1" 1 1 false .nil .nil)) 0,
           asNVBase (analyzeRecord ⟨64, 64⟩ (.mk false "E2" 1 1 false .nil .nil)) 0] := by
      simp [analyzeBases]
    rw [hb, List.mergeSort_of_sorted (by simp [List.pairwise_cons, baseLe])]
    simp [analyzeFields]
  · decide

/-- C2: for every analyzed record, `isValid` equals the AND of the
declaration's own well-formedness and the validity of every child
inserted into the node; equivalently it is the AND-reduction of
well-formedness over the whole declaration tree; and malformed
declarations still yield best-effort child nodes: the child count is
determined by the shape of the declaration alone. -/
theorem analyzeRecord_isValid_spec (ctx : TargetInfo) (rd : RecordDecl) :
    (analyzeRecord ctx rd).isValid
      = (!rd.invalid && (analyzeRecord ctx rd).subFields.all FieldInfo.isValid)
    ∧ (analyzeRecord ctx rd).isValid = declValidAll rd
    ∧ (analyzeRecord ctx rd).subFields.length
      = (if rd.hasOwnVFPtr then 1 else 0) + rd.bases.countNonVirtual + rd.fields.length := by
  cases rd with
  | mk inv q sB aB h bs fs =>
    refine ⟨?_, analyzeRecord_isValid_eq ctx _, ?_⟩
    · cases h with
      | true =>
        simp [analyzeRecord, analyzeRecord_subFields, List.all_append,
          all_eq_of_perm (List.mergeSort_perm (analyzeBases ctx bs) baseLe) FieldInfo.isValid,
          Bool.and_assoc]
      | false =>
        simp [analyzeRecord, analyzeRecord_subFields, List.all_append,
          all_eq_of_perm (List.mergeSort_perm (analyzeBases ctx bs) baseLe) FieldInfo.isValid,
          Bool.and_assoc]
    · cases h with
      | true =>
        simp [analyzeRecord_subFields, List.length_append, List.length_mergeSort,
          analyzeBases_length, analyzeFields_length]
        omega
      | false =>
        simp [analyzeRecord_subFields, List.length_append, List.length_mergeSort,
          analyzeBases_length, analyzeFields_length]

/-- C3 (amended): a record's first child is a `VPtr` node exactly when
the record owns its own virtual-dispatch pointer; that node sits at
offset 0, is sized to the target pointer width, and is aligned to the
target pointer *alignment* (which coincides with the width on common
targets, but not universally). -/
theorem analyzeRecord_vptr_iff (ctx : TargetInfo) (rd : RecordDecl) :
    (rd.hasOwnVFPtr = true →
       (analyzeRecord ctx rd).subFields.head? = some (vptrNode ctx)
       ∧ (vptrNode ctx).fieldType = .VPtr ∧ (vptrNode ctx).offset = 0
       ∧ (vptrNode ctx).size = ctx.ptrWidthBits / 8
       ∧ (vptrNode ctx).align = ctx.ptrAlignBits / 8)
    ∧ (∀ v, (analyzeRecord ctx rd).subFields.head? = some v →
         v.fieldType = .VPtr → rd.hasOwnVFPtr = true) := by
  cases rd with
  | mk inv q sB aB h bs fs =>
    constructor
    · intro hh
      simp only [RecordDecl.hasOwnVFPtr_mk] at hh
      subst hh
      refine ⟨?_, rfl, rfl, rfl, rfl⟩
      simp [analyzeRecord_subFields]
    · intro v hv hft
      cases h with
      | true => rfl
      | false =>
        exfalso
        rw [analyzeRecord_subFields, if_neg Bool.false_ne_true, List.nil_append] at hv
        have hmem : v ∈ (analyzeBases ctx bs).mergeSort baseLe ++ analyzeFields ctx fs :=
          List.mem_of_mem_head? (by rw [hv]; exact rfl)
        rcases List.mem_append.mp hmem with hm | hm
        · have : v.fieldType = .NVBase :=
            mem_analyzeBases_fieldType ctx bs v
              (((List.mergeSort_perm (analyzeBases ctx bs) baseLe).mem_iff).mp hm)
          rw [hft] at this
          exact absurd this (by decide)
        · exact mem_analyzeFields_fieldType ctx fs v hm hft

/-- C3 witness: on a 64-bit target, a record that owns its vptr gets the
vptr node as its first child. -/
theorem analyzeRecord_vptr_iff_witness :
    (analyzeRecord ⟨64, 64⟩ (.mk false "V" 8 8 true .nil .nil)).subFields.head?
      = some (vptrNode ⟨64, 64⟩) :=
  ((analyzeRecord_vptr_iff ⟨64, 64⟩ (.mk false "V" 8 8 true .nil .nil)).1 rfl).1

/-- C3 counterexample: on a target whose pointer alignment (16 bits)
differs from its pointer width (32 bits), the vptr child is aligned to 2
bytes, not to the pointer width of 4 bytes, so "aligned to the target
machine's pointer width" fails. -/
theorem analyzeRecord_vptr_align_counterexample :
    ((analyzeRecord ⟨32, 16⟩ (.mk false "V" 4 4 true .nil .nil)).subFields.map
        FieldInfo.align) = [2]
    ∧ (2 : Nat) ≠ 32 / 8 := by
  constructor
  · rw [analyzeRecord_subFields]
    have hb : analyzeBases ⟨32, 16⟩ .nil = [] := rfl
    rw [hb]
    simp [analyzeFields, vptrNode, toCharUnitsFromBits]
  · decide

/-- C10: the vptr child node created by `analyzeRecord` is valid, has an
empty name, type string `"vptr"` and offset 0, regardless of whether the
enclosing record's declaration is malformed; and its presence never
changes the enclosing node's validity AND-reduction. -/
theorem analyzeRecord_vptr_node_fields (ctx : TargetInfo) (inv : Bool) (q : String)
    (sB aB : Nat) (bs : BaseList) (fs : FieldList) :
    (analyzeRecord ctx (.mk inv q sB aB true bs fs)).subFields.head? = some (vptrNode ctx)
    ∧ (vptrNode ctx).isValid = true ∧ (vptrNode ctx).name = ""
    ∧ (vptrNode ctx).type = "vptr" ∧ (vptrNode ctx).offset = 0
    ∧ (analyzeRecord ctx (.mk inv q sB aB true bs fs)).isValid
        = (analyzeRecord ctx (.mk inv q sB aB false bs fs)).isValid := by
  refine ⟨?_, rfl, rfl, rfl, rfl, ?_⟩
  · simp [analyzeRecord_subFields]
  · simp [analyzeRecord]

/-- C4: every node's serialized `offset` key is the stored bit offset
divided by 8 rounding toward zero (the stored offset is a `Nat`, hence
non-negative, so truncating division is rounding toward zero); and
`layoutOf` on a stored identity renders that node with `writeField`. -/
theorem writeField_offset_spec :
    (∀ f : FieldInfo, ∃ pre post,
        writeField f = pre ++ (",\"offset\":" ++ utostr (f.offset >>> 3)) ++ post
        ∧ f.offset >>> 3 = f.offset / 8)
    ∧ ∀ (c : LayoutContext) (id : Int) (root : FieldInfo),
        List.lookup id c.records = some root →
          (getLayoutForRecord c id).1 = writeField root := by
  constructor
  · intro f
    cases f with
    | mk v ft n t off sz al bw subs =>
      refine ⟨fieldHead (.mk v ft n t off sz al bw subs),
        (if ft = .BitField then ",\"bitWidth\":" ++ utostr bw else "") ++
          ((if ft = .Record || ft = .NVBase then
              ",\"subFields\": [" ++ writeFieldsAux subs true ++ "]"
            else "") ++ "\x7d"), ?_, ?_⟩
      · rw [writeField]
        simp only [FieldInfo.offset_mk]
      · simp [Nat.shiftRight_eq_div_pow]
  · intro c id root h
    simp [getLayoutForRecord, h]

/-- C4 witness: a stored record is rendered by `writeField`, whose
`offset` key for a 32-bit-offset node is 4. -/
theorem writeField_offset_spec_witness :
    (getLayoutForRecord
        ⟨"", "", [((7 : Int), FieldInfo.mk true .Simple "x" "int" 32 4 4 0 [])]⟩ 7).1
      = writeField (FieldInfo.mk true .Simple "x" "int" 32 4 4 0 []) :=
  writeField_offset_spec.2 _ 7 _ rfl

set_option maxRecDepth 4096 in
theorem escapeByte_eq_spec : ∀ b, b < 256 → escapeByte b = escapeByteSpec b := by
  decide

/-- C5: on every byte string, `writeEscaped` performs exactly the
per-byte escaping the spec describes: `"` and `\` escaped, the five
control characters with short escapes, every other byte below 0x20 as a
4-hex-digit `\u` escape, and all other bytes passed through unchanged. -/
theorem writeEscaped_spec (bs : List Nat) (h : ∀ b ∈ bs, b < 256) :
    writeEscaped bs = (bs.map escapeByteSpec).flatten := by
  induction bs with
  | nil => rfl
  | cons b rest ih =>
    have hb : b < 256 := h b (by simp)
    have hrest := ih (fun x hx => h x (by simp [hx]))
    have heq : escapeByte (b % 256) = escapeByteSpec b := by
      rw [Nat.mod_eq_of_lt hb]
      exact escapeByte_eq_spec b hb
    simp [writeEscaped, heq, hrest]

/-- C5 witness: one byte of each class. -/
theorem writeEscaped_spec_witness :
    writeEscaped [34, 92, 8, 12, 10, 13, 9, 1, 31, 65, 128]
      = ([34, 92, 8, 12, 10, 13, 9, 1, 31, 65, 128].map escapeByteSpec).flatten :=
  writeEscaped_spec _ (by decide)

/-- C6: under the ascending-key invariant of `std::map`, `getRecordList`
renders the store as a comma-joined array of `recordEntry` objects in
ascending-identity order, renders `[]` when the store is empty, and
renders `[]` after `cleanup` with no intervening analysis. -/
theorem getRecordList_spec (c : LayoutContext)
    (h : List.Chain' (fun a b : Int × FieldInfo => a.1 < b.1) c.records) :
    (getRecordList c).1 = "[" ++ commaJoin (c.records.map recordEntry) ++ "]"
    ∧ List.Chain' (· < ·) (c.records.map Prod.fst)
    ∧ (c.records = [] → (getRecordList c).1 = "[]")
    ∧ (getRecordList (cleanup c)).1 = "[]" := by
  refine ⟨?_, ?_, ?_, ?_⟩
  · simp [getRecordList, getRecordListStr, renderRecords_true_eq]
  · exact (List.chain'_map Prod.fst).mpr h
  · intro he
    simp only [getRecordList, getRecordListStr, he, renderRecords]
    decide
  · simp only [getRecordList, getRecordListStr, cleanup, renderRecords]
    decide

/-- C6 witness: a two-entry store with ascending identities. -/
theorem getRecordList_spec_witness :
    (getRecordList (cleanup
        ⟨"a", "x", [((1 : Int), FieldInfo.mk true .Record "" "A" 0 1 1 0 []),
                    ((2 : Int), FieldInfo.mk true .Record "" "B" 0 1 1 0 [])]⟩)).1
      = "[]" :=
  (getRecordList_spec _ (by simp [List.chain'_cons])).2.2.2

/-- C7: `layoutOf` on an identity absent from the store returns the
empty-object placeholder and leaves the session state unchanged. -/
theorem getLayoutForRecord_miss (c : LayoutContext) (id : Int)
    (h : List.lookup id c.records = none) :
    getLayoutForRecord c id = ("\x7b\x7d", c) := by
  simp [getLayoutForRecord, h]

/-- C7 witness: a miss on an empty store. -/
theorem getLayoutForRecord_miss_witness :
    getLayoutForRecord ⟨"args", "cache", []⟩ 5 = ("\x7b\x7d", ⟨"args", "cache", []⟩) :=
  getLayoutForRecord_miss _ 5 rfl

/-- C8: `cleanup` clears the record store and the cached listing text
and leaves the configuration string unchanged, for every session
state. -/
theorem cleanup_spec (c : LayoutContext) :
    (cleanup c).args = c.args ∧ (cleanup c).records = [] ∧ (cleanup c).recordList = "" :=
  ⟨rfl, rfl, rfl⟩

/-- C9: every listing entry renders its identity as a quoted decimal
digit string (`"id":"<digits>"`), not as a JSON number. -/
theorem recordList_id_quoted (recs : List (Int × FieldInfo)) (p : Int × FieldInfo)
    (h : p ∈ recs) :
    (∃ pre post, getRecordListStr recs
        = pre ++ ("\"id\":\"" ++ utostr (toUInt64Nat p.1) ++ "\"") ++ post)
    ∧ (utostr (toUInt64Nat p.1)).data.all Char.isDigit = true := by
  refine ⟨?_, utostr_digits _⟩
  obtain ⟨l1, l2, rfl⟩ := List.append_of_mem h
  obtain ⟨pre, hpre⟩ := renderRecords_decomp p l2 l1 true
  refine ⟨"[" ++ pre ++ "\x7b",
    (",\"name\":\"" ++ escapeString p.2.type ++ "\"\x7d")
      ++ renderRecords l2 false ++ "]", ?_⟩
  rw [getRecordListStr, hpre, recordEntry_decomp]
  simp only [String.append_assoc]

/-- C9 witness: a singleton store's identity renders as digits only. -/
theorem recordList_id_quoted_witness :
    (utostr (toUInt64Nat (3 : Int))).data.all Char.isDigit = true :=
  (recordList_id_quoted [((3 : Int), FieldInfo.mk true .Record "" "A" 0 1 1 0 [])]
    ((3 : Int), FieldInfo.mk true .Record "" "A" 0 1 1 0 [])
    (List.mem_singleton_self _)).2

end Cxxlayout
